import Mathlib

/-!
Verification of the `irlib` Survey module (`src/irlib/survey.py`) against its
natural-language specification.

Python strings are modelled as `List Char` so that the string-manipulation in
`Survey._path2fid`, `Survey.GetLines` and `Survey.ExtractLine` can be embedded
faithfully (Python `split(sep, maxsplit)`, slicing, `rjust`, `int()` and
`str()` are each given an executable Lean counterpart).  The HDF5 container is
modelled as a finite tree (`HNode`), and every fallible Python operation is
embedded in `Except PyErr`, with one `PyErr` constructor per Python exception
class that the source can raise or catch.
-/

abbrev Str := List Char

/-- Python exception classes observable in `survey.py`. -/
inductive PyErr where
  | keyError
  | indexError
  | valueError
  | typeError
  | attributeError
  | genericExn
deriving DecidableEq, Repr

/-- Python `l[i]` for a non-negative index `i`: `IndexError` when out of range. -/
def pyIdxE {α : Type} (l : List α) (i : Nat) : Except PyErr α :=
  if h : i < l.length then .ok (l.get ⟨i, h⟩) else .error .indexError

/-- Python `l[-2]`: the second-to-last element, `IndexError` when `len(l) < 2`. -/
def pyIdxNeg2 {α : Type} (l : List α) : Except PyErr α :=
  if h : 2 ≤ l.length then .ok (l.get ⟨l.length - 2, by omega⟩) else .error .indexError

/-- Python `s.split(sep, maxsplit)` on a character list: split on `sep` at most
`m` times.  As in Python, the result is never empty and splitting the empty
string yields `[""]`. -/
def pySplitCh (sep : Char) : Nat → List Char → List (List Char)
  | _, [] => [[]]
  | m, c :: cs =>
    if c = sep then
      match m with
      | 0 => [c :: cs]
      | m' + 1 => [] :: pySplitCh sep m' cs
    else
      match pySplitCh sep m cs with
      | [] => [[c]]
      | h :: t => (c :: h) :: t

/-- Python `s.split(sep)` without a maxsplit: split on every occurrence. -/
def pySplitAllCh (sep : Char) : List Char → List (List Char)
  | [] => [[]]
  | c :: cs =>
    if c = sep then
      [] :: pySplitAllCh sep cs
    else
      match pySplitAllCh sep cs with
      | [] => [[c]]
      | h :: t => (c :: h) :: t

def isDigit (c : Char) : Bool := '0' ≤ c && c ≤ '9'

def digVal (c : Char) : Nat := c.toNat - '0'.toNat

def digitChar : Nat → Char
  | 0 => '0' | 1 => '1' | 2 => '2' | 3 => '3' | 4 => '4'
  | 5 => '5' | 6 => '6' | 7 => '7' | 8 => '8' | _ => '9'

/-- Decimal digits of `n`, least significant first, with explicit fuel so that
the definition is structural (and hence kernel-reducible). -/
def natReprRevFuel : Nat → Nat → List Char
  | 0, _ => []
  | fuel + 1, n =>
    if n < 10 then [digitChar n] else digitChar (n % 10) :: natReprRevFuel fuel (n / 10)

def natReprRev (n : Nat) : List Char := natReprRevFuel (n + 1) n

/-- Python `str(n)` for a non-negative integer. -/
def natRepr (n : Nat) : Str := (natReprRev n).reverse

/-- Accumulator loop of decimal parsing. -/
def parseAcc (acc : Nat) : List Char → Option Nat
  | [] => some acc
  | c :: cs => if isDigit c then parseAcc (10 * acc + digVal c) cs else none

/-- Python `int(s)` restricted to strings of decimal digits: `none` models the
`ValueError` raised on the empty string or on any non-digit character. -/
def parseDigits (l : Str) : Option Nat :=
  match l with
  | [] => none
  | _ :: _ => parseAcc 0 l

/-- Python `s.rjust(w, c)`: left-pad to width `w`; strings already at least
`w` long are returned unchanged (never truncated). -/
def rjust (w : Nat) (c : Char) (s : Str) : Str :=
  List.replicate (w - s.length) c ++ s

/-- `seg.split('_', 1)[1]` followed by `int(...)`, as used for every field of
`Survey._path2fid`: `IndexError` when the segment has no underscore,
`ValueError` when the suffix is not a number. -/
def segNum (seg : Str) : Except PyErr Nat :=
  match pySplitCh '_' 1 seg with
  | [_, tail] =>
    match parseDigits tail with
    | some n => .ok n
    | none => .error .valueError
  | _ => .error .indexError

/-- `Survey._path2fid(path, linloc_only)`.  Mirrors the source exactly: the
leading character of `path` is dropped, the line / location / datacapture
fields are read from segments 0, 1 and 2 of the remainder, and the echogram
field is read from segment 2 as well (the source computes `dc` and `eg` from
the same expression `path[1:].split('/',3)[2]`).  Each field is rendered with
`str(n).rjust(4, '0')` and the four renderings are concatenated. -/
def path2fid (path : Str) (linloc_only : Bool) : Except PyErr Str := do
  let p := path.drop 1
  let s0 ← pyIdxE (pySplitCh '/' 1 p) 0
  let lin ← segNum s0
  let s1 ← pyIdxE (pySplitCh '/' 2 p) 1
  let loc ← segNum s1
  let (dc, eg) ←
    if linloc_only then
      pure ((0 : Nat), (0 : Nat))
    else do
      let s2 ← pyIdxE (pySplitCh '/' 3 p) 2
      let dc ← segNum s2
      let s2b ← pyIdxE (pySplitCh '/' 3 p) 2
      let eg ← segNum s2b
      pure (dc, eg)
  pure (rjust 4 '0' (natRepr lin) ++ rjust 4 '0' (natRepr loc) ++
        rjust 4 '0' (natRepr dc) ++ rjust 4 '0' (natRepr eg))

/-- A path segment `<pre>_<n>`. -/
def mkSeg (pre : Str) (n : Nat) : Str := pre ++ '_' :: natRepr n

/-- A well-formed four-level hierarchical path
`line_<lin>/location_<loc>/datacapture_<dc>/echogram_<eg>`. -/
def mkPath (lin loc dc eg : Nat) : Str :=
  mkSeg ("line".toList) lin ++ '/' ::
    (mkSeg ("location".toList) loc ++ '/' ::
      (mkSeg ("datacapture".toList) dc ++ '/' :: mkSeg ("echogram".toList) eg))

instance {ε α : Type} [DecidableEq ε] [DecidableEq α] : DecidableEq (Except ε α) := fun a b =>
  match a, b with
  | .ok x, .ok y => decidable_of_iff (x = y) (by simp)
  | .error x, .error y => decidable_of_iff (x = y) (by simp)
  | .ok _, .error _ => isFalse (by simp)
  | .error _, .ok _ => isFalse (by simp)

/-- A node of the backing HDF5 container: either a dataset holding a numeric
vector, or a group with named children. -/
inductive HNode where
  | dataset (vals : List Int)
  | group (children : List (Str × HNode))

/-- The top level of an HDF5 file: named top-level nodes. -/
abbrev Store := List (Str × HNode)

mutual
/-- `node.visit(names.append)`: every descendant's relative slash-joined name,
depth first, parents before children. -/
def visitNames : HNode → List Str
  | .dataset _ => []
  | .group cs => visitChildren cs

def visitChildren : List (Str × HNode) → List Str
  | [] => []
  | (n, c) :: rest =>
      n :: ((visitNames c).map (fun s => n ++ ('/' :: s))) ++ visitChildren rest
end

def childNamed (cs : List (Str × HNode)) (name : Str) : Option HNode :=
  (cs.find? (fun p => p.1 == name)).map Prod.snd

/-- Resolve a list of path segments below a node. -/
def lookupSegs : HNode → List Str → Option HNode
  | n, [] => some n
  | .dataset _, _ :: _ => none
  | .group cs, s :: rest =>
    match childNamed cs s with
    | some c => lookupSegs c rest
    | none => none

/-- `node[rel]` for a relative slash-delimited name. -/
def lookupRel (root : HNode) (rel : Str) : Option HNode :=
  lookupSegs root (pySplitAllCh '/' rel)

/-- `isinstance(node[rel], h5py.Dataset)`. -/
def isDatasetRel (root : HNode) (rel : Str) : Bool :=
  match lookupRel root rel with
  | some (.dataset _) => true
  | _ => false

/-- `node[rel].value` for a dataset leaf (and `[]` on non-leaves, which the
source never reaches because leaves are pre-filtered by `isinstance`). -/
def leafVals (root : HNode) (rel : Str) : List Int :=
  match lookupRel root rel with
  | some (.dataset vs) => vs
  | _ => []

/-- `self.retain`: line name → location name → retained flag. -/
abbrev RetainMap := List (Str × List (Str × Bool))

/-- The retention map built by `Survey.__init__`: every location of every
top-level group defaults to retained. -/
def buildRetain (store : Store) : RetainMap :=
  store.filterMap fun p =>
    match p.2 with
    | .group cs => some (p.1, cs.map (fun c => (c.1, true)))
    | .dataset _ => none

/-- `self.retain[line][location]` under `AutoVivification` semantics when only
read: a missing line or location yields an empty (falsy) entry. -/
def retainLookup (r : RetainMap) (line loc : Str) : Bool :=
  match r.lookup line with
  | none => false
  | some m => (m.lookup loc).getD false

/-- `self.retain[line][loc] = v`, as performed by downstream analysis code on
entries created by the constructor. -/
def setRetain (r : RetainMap) (line loc : Str) (v : Bool) : RetainMap :=
  r.map fun p =>
    if p.1 == line then (p.1, p.2.map (fun q => if q.1 == loc then (q.1, v) else q)) else p

/-- `self.status` of a `Survey`. -/
inductive Status where
  | opened
  | closed
deriving DecidableEq, Repr

/-- Instrumented handle state: the current status of `self.f`, plus a latch
recording whether the store was ever read while the handle was closed. -/
structure H5S where
  status : Status
  badRead : Bool
deriving DecidableEq, Repr

/-- `self._openh5()`. -/
def openF (st : H5S) : H5S := { st with status := .opened }

/-- `self._closeh5()`. -/
def closeF (st : H5S) : H5S := { st with status := .closed }

/-- Any access to `self.f`: latches `badRead` when the handle is closed. -/
def readF (st : H5S) : H5S :=
  { st with badRead := st.badRead || decide (st.status = .closed) }

/-- Whether an access to `self.f` succeeds: h5py raises `ValueError` on any
operation against a closed handle.  `GetLines` and `ExtractLine` only read
between `_openh5` and `_closeh5`, so their reads cannot fail this way;
`WriteHDF5` reads without opening, so its reads go through this check. -/
def readCheck (st : H5S) : Except PyErr Unit :=
  if st.status = .closed then .error .valueError else .ok ()

/-- Loop body of `Survey.WriteHDF5`: walk the top-level entries of the source,
create each group in the destination (raising when it somehow already exists),
and copy each location subtree whose retention flag is set.  Every iteration
touches `self.f`, which `WriteHDF5` never opens. -/
def writeGo (retain : RetainMap) : Store → Store → H5S → Except PyErr Store × H5S
  | [], out, st => (.ok out, st)
  | (name, node) :: rest, out, st =>
    let st1 := readF st
    match readCheck st with
    | .error e => (.error e, st1)
    | .ok _ =>
      match node with
      | .dataset _ => writeGo retain rest out st1
      | .group cs =>
        if (out.map Prod.fst).contains name then
          (.error .genericExn, st1)
        else
          let st2 := readF st1
          match readCheck st1 with
          | .error e => (.error e, st2)
          | .ok _ =>
            let kept := cs.filter fun lc => retainLookup retain name lc.1
            writeGo retain rest (out ++ [(name, .group kept)]) st2

/-- `Survey.WriteHDF5(fnm, overwrite)`.  When the destination exists and
`overwrite` is false the call returns having written nothing; otherwise it
iterates `self.f` (without ever opening it) building the filtered copy. -/
def writeHDF5 (store : Store) (retain : RetainMap) (destExists overwrite : Bool)
    (st : H5S) : Except PyErr (Option Store) × H5S :=
  if destExists && !overwrite then
    (.ok none, st)
  else
    let st1 := readF st
    match readCheck st with
    | .error e => (.error e, st1)
    | .ok _ =>
      let r := writeGo retain store [] st1
      (r.1.map some, r.2)

/-- Sequence a fallible operation over a list, propagating the first raised
exception, as a Python `for` loop over fallible calls does. -/
def exceptMapM {α β : Type} (f : α → Except PyErr β) : List α → Except PyErr (List β)
  | [] => .ok []
  | x :: xs => do
    let y ← f x
    let ys ← exceptMapM f xs
    pure (y :: ys)

/-- The sort key of `Survey.GetLines`: `int(s.split('_')[1])`. -/
def lineKey (n : Str) : Except PyErr Nat := do
  let t ← pyIdxE (pySplitAllCh '_' n) 1
  match parseDigits t with
  | some k => pure k
  | none => .error .valueError

/-- Total version of `lineKey`, used to state sortedness. -/
def keyD (n : Str) : Nat :=
  match lineKey n with
  | .ok k => k
  | .error _ => 0

/-- The top-level names kept by `Survey.GetLines`: `name[:4] == 'line'`. -/
def lineNames (store : Store) : List Str :=
  (store.map Prod.fst).filter fun n => n.take 4 == "line".toList

/-- Comparison of names through a numeric key. -/
def keyLe (k : Str → Nat) (a b : Str) : Prop := k a ≤ k b

instance (k : Str → Nat) : DecidableRel (keyLe k) := fun a b => Nat.decLe (k a) (k b)

instance (k : Str → Nat) : IsTotal Str (keyLe k) := ⟨fun a b => Nat.le_total (k a) (k b)⟩

instance (k : Str → Nat) : IsTrans Str (keyLe k) := ⟨fun _ _ _ => Nat.le_trans⟩

/-- `Survey.GetLines()`: open the store, read the top-level names whose first
four characters are `line`, close the store, then sort the kept names by the
integer after the underscore (a stable sort, modelled by insertion sort; a
name whose key cannot be computed raises after the handle is closed). -/
def getLines (store : Store) (st : H5S) : Except PyErr (List Str) × H5S :=
  let st1 := openF st
  let st2 := readF st1
  let names := lineNames store
  let st3 := closeF st2
  match exceptMapM lineKey names with
  | .error e => (.error e, st3)
  | .ok _ => (.ok (List.insertionSort (keyLe keyD) names), st3)

/-- The `datacapture` argument of `Survey.ExtractLine`: either a single
channel number or an iterable of channel numbers. -/
inductive DcArg where
  | one (n : Nat)
  | many (ns : List Nat)
deriving DecidableEq, Repr

/-- A Python value appearing as an element of the `bounds` argument. -/
inductive BVal where
  | noneV
  | intV (i : Int)
  | strV (s : Str)
deriving DecidableEq, Repr

/-- The `bounds` argument itself: a subscriptable sequence of values, or a
non-subscriptable scalar (an int, a float, `None`, ...). -/
inductive BoundsArg where
  | tup (es : List BVal)
  | scalarB
deriving DecidableEq, Repr

/-- Python `bounds[i]`: `TypeError` on a non-subscriptable argument,
`IndexError` past the end of a sequence. -/
def getitemB : BoundsArg → Nat → Except PyErr BVal
  | .tup es, i => pyIdxE es i
  | .scalarB, _ => .error .typeError

/-- Python `l[:k]` for an integer `k` (negative indices count from the end). -/
def pySliceTo {α : Type} (k : Int) (l : List α) : List α :=
  if k < 0 then l.take (l.length - (-k).toNat) else l.take k.toNat

/-- Python `l[k:]` for an integer `k` (negative indices count from the end). -/
def pySliceFrom {α : Type} (k : Int) (l : List α) : List α :=
  if k < 0 then l.drop (l.length - (-k).toNat) else l.drop k.toNat

/-- The bounds block of `Survey.ExtractLine`:

    try:
        if bounds[1] != None: datasets = datasets[:bounds[1]]
        if bounds[0] != None: datasets = datasets[bounds[0]:]
    except TypeError:
        sys.stderr.write("bounds kwarg ... must be a two element list or tuple")

Only `TypeError` is caught (yielding the current dataset list and a warning
flag); any other exception — notably the `IndexError` raised by `bounds[1]`
on a sequence with fewer than two elements — propagates. -/
def applyBounds {α : Type} (bounds : BoundsArg) (ds : List α) :
    Except PyErr (List α × Bool) :=
  match getitemB bounds 1 with
  | .error .typeError => .ok (ds, true)
  | .error e => .error e
  | .ok b1 =>
    let r1 : Except PyErr (List α) :=
      match b1 with
      | .noneV => .ok ds
      | .intV k => .ok (pySliceTo k ds)
      | .strV _ => .error .typeError
    match r1 with
    | .error .typeError => .ok (ds, true)
    | .error e => .error e
    | .ok ds1 =>
      match getitemB bounds 0 with
      | .error .typeError => .ok (ds1, true)
      | .error e => .error e
      | .ok b0 =>
        match b0 with
        | .noneV => .ok (ds1, false)
        | .intV k => .ok (pySliceFrom k ds1, false)
        | .strV _ => .ok (ds1, true)

/-- `allowed_datacaptures`: the `datacapture_<n>` labels kept by the channel
filter. -/
def allowedDcs : DcArg → List Str
  | .one n => ["datacapture_".toList ++ natRepr n]
  | .many ns => ns.map fun n => "datacapture_".toList ++ natRepr n

/-- The channel filter `lambda c: c.split('/')[-2] in allowed_datacaptures`,
applied eagerly left to right; `c.split('/')[-2]` raises `IndexError` on a
name with a single segment. -/
def keepAllowed (allowed : List Str) : List Str → Except PyErr (List Str)
  | [] => .ok []
  | c :: rest => do
    let seg ← pyIdxNeg2 (pySplitAllCh '/' c)
    let others ← keepAllowed allowed rest
    pure (if allowed.contains seg then c :: others else others)

/-- Python `needle in hay` on strings: substring containment. -/
def strContainsSub (needle : Str) : Str → Bool
  | [] => needle.isEmpty
  | c :: cs => needle.isPrefixOf (c :: cs) || strContainsSub needle cs

/-- The nested dataset filter of `Survey.ExtractLine`: keep the visited names
that are datasets, discard those whose absolute name contains `picked`, then
keep those whose parent segment is an allowed datacapture. -/
def selectDatasets (node : HNode) (path : Str) (allowed : List Str) :
    Except PyErr (List Str) :=
  let names := visitNames node
  let l1 := names.filter fun a => isDatasetRel node a
  let l2 := l1.filter fun b => !(strContainsSub ("picked".toList) ('/' :: (path ++ ('/' :: b))))
  keepAllowed allowed l2

/-- The location sort key `lambda s: int(s.split('/')[0].split('_')[1])`. -/
def locKey (c : Str) : Except PyErr Nat := do
  let seg0 ← pyIdxE (pySplitAllCh '/' c) 0
  let t ← pyIdxE (pySplitAllCh '_' seg0) 1
  match parseDigits t with
  | some k => pure k
  | none => .error .valueError

/-- Total version of `locKey`, used for the sort relation. -/
def locKeyD (c : Str) : Nat :=
  match locKey c with
  | .ok k => k
  | .error _ => 0

/-- `datasets.sort(key=...)`: compute every key (propagating any exception),
then sort stably by location number. -/
def sortDatasets (ds : List Str) : Except PyErr (List Str) :=
  match exceptMapM locKey ds with
  | .error e => .error e
  | .ok _ => .ok (List.insertionSort (keyLe locKeyD) ds)

/-- Python `max(l)`: `None` models the `ValueError` raised on an empty list. -/
def pyMax : List Nat → Option Nat
  | [] => none
  | x :: xs => some (xs.foldl Nat.max x)

/-- Zero-pad a trace to `m` samples (`arr[:nsamples[j], j] = ...` into a
column of `np.zeros((maxsamples, n))`). -/
def padTo (m : Nat) (v : List Int) : List Int :=
  v ++ List.replicate (m - v.length) 0

/-- The maximum sample count over the selected traces. -/
def maxSamples (vecs : List (List Int)) : Nat :=
  (pyMax (vecs.map List.length)).getD 0

/-- The array-assembly step of `Survey.ExtractLine`:

    maxsamples = max(nsamples)
    arr = np.zeros((maxsamples, len(datasets)))
    for j, dataset in enumerate(datasets): arr[:nsamples[j], j] = ...

`none` models the caught `ValueError` (empty selection); otherwise the result
is the row count together with the zero-padded columns. -/
def assemble (vecs : List (List Int)) : Option (Nat × List (List Int)) :=
  match pyMax (vecs.map List.length) with
  | none => none
  | some m => some (m, vecs.map (padTo m))

/-- The `CommonOffsetGather` aggregate returned by `Survey.ExtractLine`. -/
structure Gather where
  nrows : Nat
  cols : List (List Int)
  infile : Str
  line : Nat
  fids : List Str
  retain : List (Str × Bool)
  dc : DcArg
deriving DecidableEq, Repr

/-- A `Survey` object: store path, retention map and handle status. -/
structure Survey where
  datafile : Str
  retain : RetainMap
  status : Status
deriving DecidableEq, Repr

def noMatchMsg : Str := "no datasets match the specified channel(s)\n".toList

def sortErrMsg : Str :=
  "Error sorting datasets by location number in ExtractLine()\n".toList

def boundsWarnMsg : Str :=
  "bounds kwarg in ExtractLine() must be a two element list or tuple\n".toList

def failedIndexMsg (path : Str) : Str :=
  "Failed to index ".toList ++ path ++ " - it might be empty\n".toList

def cacheMissMsg (fnm : Str) : Str :=
  "Cached file ".toList ++ fnm ++ " not available; loading from HDF\n".toList

/-- `os.path.basename`. -/
def pyBasename (s : Str) : Str := (pySplitAllCh '/' s).getLastD []

/-- The root part of `os.path.splitext`. -/
def pySplitextRoot (s : Str) : Str :=
  match pySplitAllCh '.' s with
  | [x] => x
  | parts => List.intercalate ['.'] parts.dropLast

/-- Python `str(datacapture)` for the two argument shapes. -/
def strDc : DcArg → Str
  | .one n => natRepr n
  | .many ns => '[' :: (List.intercalate (", ".toList) (ns.map natRepr) ++ [']'])

/-- `Survey.GetLineCacheName(line, dc, cache_dir)`. -/
def getLineCacheName (datafile : Str) (line : Nat) (dc : DcArg) (cacheDir : Str) : Str :=
  cacheDir ++ ('/' :: pySplitextRoot (pyBasename datafile)) ++ "_line".toList ++
    natRepr line ++ ('_' :: strDc dc) ++ ".ird".toList

/-- `'line_{0}'.format(line)`. -/
def linePath (line : Nat) : Str := "line_".toList ++ natRepr line

/-- The body of `Survey.ExtractLine` between `_openh5` and `_closeh5`: resolve
the line group, select / sort / bound the datasets, derive the per-trace FIDs,
and assemble the padded array.  The second component is the list of
diagnostics written to stderr, in order. -/
def extractBody (retain : RetainMap) (datafile : Str) (store : Store) (line : Nat)
    (bounds : BoundsArg) (dc : DcArg) : Except PyErr (Option Gather) × List Str :=
  let path := linePath line
  match childNamed store path with
  | none => (.error .keyError, [])
  | some (.dataset _) => (.error .attributeError, [])
  | some (.group cs) =>
    let node := HNode.group cs
    match selectDatasets node path (allowedDcs dc) with
    | .error e => (.error e, [])
    | .ok ds0 =>
      let d1 : List Str := if ds0.length == 0 then [noMatchMsg] else []
      match sortDatasets ds0 with
      | .error e => (.error e, d1 ++ [sortErrMsg])
      | .ok ds1 =>
        match applyBounds bounds ds1 with
        | .error e => (.error e, d1)
        | .ok (ds2, warned) =>
          let d2 := d1 ++ (if warned then [boundsWarnMsg] else [])
          match exceptMapM (fun t => path2fid (path ++ ('/' :: t)) false) ds2 with
          | .error e => (.error e, d2)
          | .ok fids =>
            match assemble (ds2.map (leafVals node)) with
            | none => (.ok none, d2 ++ [failedIndexMsg path])
            | some (m, cols) =>
              (.ok (some { nrows := m, cols := cols, infile := datafile,
                           line := line, fids := fids,
                           retain := (retain.lookup path).getD [], dc := dc }), d2)

/-- The store-backed path of `Survey.ExtractLine`: `_openh5`, the body inside
`try`, `_closeh5` in `finally` (on success, on the early `return`, and on any
raised exception alike), then construction of the gather. -/
def extractCore (sv : Survey) (store : Store) (line : Nat) (bounds : BoundsArg)
    (dc : DcArg) : Except PyErr (Option Gather) × Survey × List Str :=
  let sv1 := { sv with status := .opened }
  let r := extractBody sv.retain sv.datafile store line bounds dc
  let sv2 := { sv1 with status := .closed }
  (r.1, sv2, r.2)

/-- `Survey.ExtractLine(line, bounds, datacapture, fromcache, cache_dir)`.
`cacheFile` is the content of the canonical cache file (`none` when the file
does not exist): a cache hit returns the unpickled gather untouched; a cache
miss writes a diagnostic and falls through to the store-backed path. -/
def extractLine (sv : Survey) (store : Store) (line : Nat) (bounds : BoundsArg)
    (dc : DcArg) (fromcache : Bool) (cacheDir : Str) (cacheFile : Option Gather) :
    Except PyErr (Option Gather) × Survey × List Str :=
  if fromcache then
    match cacheFile with
    | some g => (.ok (some g), sv, [])
    | none =>
      let fnm := getLineCacheName sv.datafile line dc cacheDir
      let r := extractCore sv store line bounds dc
      (r.1, r.2.1, cacheMissMsg fnm :: r.2.2)
  else
    extractCore sv store line bounds dc

/-! Concrete stores used to instantiate the theorems below. -/

/-- A location subtree holding a single trace. -/
def locN (vals : List Int) : HNode :=
  HNode.group [("datacapture_0".toList,
    HNode.group [("echogram_0".toList, HNode.dataset vals)])]

/-- One line at three locations with trace lengths 5, 3 and 7. -/
def store1 : Store :=
  [("line_0".toList, HNode.group
      [("location_0".toList, locN [1, 2, 3, 4, 5]),
       ("location_1".toList, locN [6, 7, 8]),
       ("location_2".toList, locN [9, 10, 11, 12, 13, 14, 15])])]

def sv1 : Survey :=
  { datafile := "survey.h5".toList, retain := buildRetain store1, status := .closed }

/-- Lines {1, 2} with locations {A, B} under each. -/
def storeR : Store :=
  [("line_1".toList, HNode.group
      [("location_A".toList, locN [1, 2]), ("location_B".toList, locN [3])]),
   ("line_2".toList, HNode.group
      [("location_A".toList, locN [4]), ("location_B".toList, locN [5, 6])])]

/-- Sample lengths {5, 3, 7} for three locations. -/
def vecs537 : List (List Int) :=
  [[1, 2, 3, 4, 5], [6, 7, 8], [9, 10, 11, 12, 13, 14, 15]]

/-- Ten sorted candidate leaves. -/
def ds10 : List Str :=
  ["a".toList, "b".toList, "c".toList, "d".toList, "e".toList,
   "f".toList, "g".toList, "h".toList, "i".toList, "j".toList]

/-- Top level with line numbers 9 and 10 and one non-line entry. -/
def store9 : Store :=
  [("line_10".toList, HNode.group []),
   ("line_9".toList, HNode.group []),
   ("gps".toList, HNode.dataset [0])]

/-- The gather assembled from `store1` (line 0, channel 0, no bounds). -/
def gather1 : Gather :=
  { nrows := 7,
    cols := [[1, 2, 3, 4, 5, 0, 0], [6, 7, 8, 0, 0, 0, 0], [9, 10, 11, 12, 13, 14, 15]],
    infile := "survey.h5".toList,
    line := 0,
    fids := ["0000000000000000".toList, "0000000100000000".toList, "0000000200000000".toList],
    retain := [("location_0".toList, true), ("location_1".toList, true),
               ("location_2".toList, true)],
    dc := .one 0 }

/-! Helper lemmas about decimal rendering and parsing. -/

theorem digitChar_spec (d : Nat) (h : d < 10) :
    isDigit (digitChar d) = true ∧ digVal (digitChar d) = d := by
  interval_cases d <;> exact ⟨by decide, by decide⟩

theorem natReprRevFuel_congr :
    ∀ (n f g : Nat), n < f → n < g → natReprRevFuel f n = natReprRevFuel g n := by
  intro n
  induction n using Nat.strong_induction_on with
  | _ n ih =>
    intro f g hf hg
    match f, g, hf, hg with
    | f' + 1, g' + 1, _, _ =>
      by_cases h10 : n < 10
      · simp [natReprRevFuel, h10]
      · have hd : n / 10 < n := Nat.div_lt_self (by omega) (by omega)
        simp only [natReprRevFuel, if_neg h10]
        rw [ih (n / 10) hd f' g' (by omega) (by omega)]

theorem natReprRev_unfold (n : Nat) :
    natReprRev n =
      if n < 10 then [digitChar n] else digitChar (n % 10) :: natReprRev (n / 10) := by
  by_cases h10 : n < 10
  · simp [natReprRev, natReprRevFuel, h10]
  · have hd : n / 10 < n := Nat.div_lt_self (by omega) (by omega)
    rw [if_neg h10]
    show natReprRevFuel (n + 1) n = _
    simp only [natReprRevFuel, if_neg h10]
    rw [natReprRevFuel_congr (n / 10) n (n / 10 + 1) (by omega) (by omega)]
    rfl

theorem natReprRev_ne_nil (n : Nat) : natReprRev n ≠ [] := by
  rw [natReprRev_unfold]; split <;> simp

theorem natReprRev_digits (n : Nat) : ∀ c ∈ natReprRev n, isDigit c = true := by
  induction n using Nat.strong_induction_on with
  | _ n ih =>
    intro c hc
    rw [natReprRev_unfold] at hc
    by_cases h10 : n < 10
    · rw [if_pos h10] at hc
      simp at hc
      subst hc
      exact (digitChar_spec n h10).1
    · rw [if_neg h10] at hc
      rcases List.mem_cons.mp hc with he | ht
      · subst he
        exact (digitChar_spec (n % 10) (Nat.mod_lt _ (by omega))).1
      · exact ih (n / 10) (Nat.div_lt_self (by omega) (by omega)) c ht

theorem natRepr_digits (n : Nat) : ∀ c ∈ natRepr n, isDigit c = true := by
  intro c hc
  exact natReprRev_digits n c (List.mem_reverse.mp hc)

theorem ne_slash_underscore_of_isDigit {c : Char} (h : isDigit c = true) :
    c ≠ '/' ∧ c ≠ '_' := by
  constructor <;> intro he <;> subst he <;> exact absurd h (by decide)

theorem parseAcc_append (xs ys : List Char) :
    ∀ acc, parseAcc acc (xs ++ ys) =
      match parseAcc acc xs with
      | some a => parseAcc a ys
      | none => none := by
  induction xs with
  | nil => intro acc; simp [parseAcc]
  | cons c cs ih =>
    intro acc
    by_cases hd : isDigit c = true
    · simp [parseAcc, hd, ih]
    · simp [parseAcc, hd]

theorem natRepr_unfold_ge (n : Nat) (h : ¬ n < 10) :
    natRepr n = natRepr (n / 10) ++ [digitChar (n % 10)] := by
  show (natReprRev n).reverse = _
  rw [natReprRev_unfold, if_neg h]
  simp [natRepr]

theorem natRepr_len_unfold_ge (n : Nat) (h : ¬ n < 10) :
    (natRepr n).length = (natRepr (n / 10)).length + 1 := by
  rw [natRepr_unfold_ge n h]
  simp

theorem parseAcc_natRepr (n : Nat) :
    ∀ acc, parseAcc acc (natRepr n) = some (acc * 10 ^ (natRepr n).length + n) := by
  induction n using Nat.strong_induction_on with
  | _ n ih =>
    intro acc
    by_cases h10 : n < 10
    · have hrep : natRepr n = [digitChar n] := by
        show (natReprRev n).reverse = _
        rw [natReprRev_unfold, if_pos h10]
        rfl
      have hd := digitChar_spec n h10
      rw [hrep]
      simp [parseAcc, hd.1, hd.2]
      omega
    · have hdlt : n / 10 < n := Nat.div_lt_self (by omega) (by omega)
      have hdig := digitChar_spec (n % 10) (Nat.mod_lt _ (by omega))
      rw [natRepr_unfold_ge n h10, parseAcc_append, ih (n / 10) hdlt acc]
      simp only [parseAcc, hdig.1, hdig.2, List.length_append, List.length_cons,
        List.length_nil, Option.some.injEq, pow_succ, if_true, ite_true]
      have hmod : 10 * (n / 10) + n % 10 = n := Nat.div_add_mod n 10
      generalize hq : n / 10 = q at *
      generalize hr : n % 10 = r at *
      generalize (10 : Nat) ^ (natRepr q).length = E
      rw [← hmod]
      ring

theorem parseDigits_natRepr (n : Nat) : parseDigits (natRepr n) = some n := by
  have hne : natRepr n ≠ [] := by
    simp only [natRepr, ne_eq, List.reverse_eq_nil_iff]
    exact natReprRev_ne_nil n
  obtain ⟨c, cs, hcs⟩ := List.exists_cons_of_ne_nil hne
  calc parseDigits (natRepr n) = parseAcc 0 (natRepr n) := by rw [hcs]; rfl
  _ = some n := by rw [parseAcc_natRepr]; simp

theorem natReprRev_len_ge : ∀ (k n : Nat), 10 ^ k ≤ n → k + 1 ≤ (natReprRev n).length := by
  intro k
  induction k with
  | zero =>
    intro n _
    rw [natReprRev_unfold]
    split <;> simp
  | succ k ih =>
    intro n hn
    have h10 : ¬ n < 10 := by
      have h1 : (10 : Nat) ≤ 10 ^ (k + 1) := by
        calc (10 : Nat) = 10 ^ 1 := by norm_num
        _ ≤ 10 ^ (k + 1) := Nat.pow_le_pow_right (by norm_num) (by omega)
      omega
    rw [natReprRev_unfold, if_neg h10]
    have hdiv : 10 ^ k ≤ n / 10 := by
      rw [Nat.le_div_iff_mul_le (by norm_num)]
      calc 10 ^ k * 10 = 10 ^ (k + 1) := by rw [pow_succ]
      _ ≤ n := hn
    have := ih (n / 10) hdiv
    simp
    omega

theorem natRepr_len_ge (k n : Nat) (h : 10 ^ k ≤ n) : k + 1 ≤ (natRepr n).length := by
  have := natReprRev_len_ge k n h
  simpa [natRepr] using this

theorem rjust_length (w : Nat) (c : Char) (s : Str) :
    (rjust w c s).length = max w s.length := by
  simp [rjust]
  omega

/-! Helper lemmas about Python split and indexing. -/

theorem pySplitCh_zero (sep : Char) (l : List Char) : pySplitCh sep 0 l = [l] := by
  induction l with
  | nil => rfl
  | cons c cs ih =>
    by_cases hc : c = sep
    · simp [pySplitCh, hc]
    · simp [pySplitCh, hc, ih]

theorem pySplitCh_sep (sep : Char) (m k : Nat) (hk : k = m + 1) (a b : List Char)
    (h : ∀ c ∈ a, c ≠ sep) :
    pySplitCh sep k (a ++ sep :: b) = a :: pySplitCh sep m b := by
  subst hk
  induction a with
  | nil => simp [pySplitCh]
  | cons c cs ih =>
    have hc : c ≠ sep := h c (by simp)
    have hrest := ih fun x hx => h x (by simp [hx])
    simp [pySplitCh, hc, hrest]

theorem pySplitAllCh_nosep (sep : Char) (l : List Char) (h : ∀ c ∈ l, c ≠ sep) :
    pySplitAllCh sep l = [l] := by
  induction l with
  | nil => rfl
  | cons c cs ih =>
    have hc : c ≠ sep := h c (by simp)
    have hrest := ih fun x hx => h x (by simp [hx])
    simp [pySplitAllCh, hc, hrest]

theorem pySplitAllCh_sep (sep : Char) (a b : List Char) (h : ∀ c ∈ a, c ≠ sep) :
    pySplitAllCh sep (a ++ sep :: b) = a :: pySplitAllCh sep b := by
  induction a with
  | nil => simp [pySplitAllCh]
  | cons c cs ih =>
    have hc : c ≠ sep := h c (by simp)
    have hrest := ih fun x hx => h x (by simp [hx])
    simp [pySplitAllCh, hc, hrest]

theorem pyIdxE_two_zero {α : Type} (a b : α) : pyIdxE [a, b] 0 = .ok a := rfl

theorem pyIdxE_two_one {α : Type} (a b : α) : pyIdxE [a, b] 1 = .ok b := rfl

theorem pyIdxE_three_one {α : Type} (a b c : α) : pyIdxE [a, b, c] 1 = .ok b := rfl

theorem pyIdxE_four_two {α : Type} (a b c d : α) : pyIdxE [a, b, c, d] 2 = .ok c := rfl

theorem exbind_ok {α β : Type} (a : α) (f : α → Except PyErr β) :
    (Except.ok a >>= f) = f a := rfl

/-- Digits contribute no separator characters to a path segment. -/
theorem seg_no_slash (pre : Str) (hpre : ∀ c ∈ pre, c ≠ '/') (n : Nat) :
    ∀ c ∈ pre ++ '_' :: natRepr n, c ≠ '/' := by
  intro c hc
  rcases List.mem_append.mp hc with h | h
  · exact hpre c h
  · rcases List.mem_cons.mp h with he | hd
    · subst he; decide
    · exact (ne_slash_underscore_of_isDigit (natRepr_digits n c hd)).1

/-- `segNum` on a well-formed segment `<pre>_<n>` recovers `n`. -/
theorem segNum_field (pre : Str) (hpre : ∀ c ∈ pre, c ≠ '_') (n : Nat) :
    segNum (pre ++ '_' :: natRepr n) = .ok n := by
  simp [segNum, pySplitCh_sep '_' 0 1 rfl pre (natRepr n) hpre, pySplitCh_zero,
    parseDigits_natRepr n]

/-- General evaluation of `Survey._path2fid` on a well-formed four-level path:
the call succeeds, and the echogram slot of the identifier carries the
*datacapture* number (the `eg` field of the path is ignored). -/
theorem path2fid_mkPath (lin loc dc eg : Nat) :
    path2fid (mkPath lin loc dc eg) false =
      .ok (rjust 4 '0' (natRepr lin) ++ rjust 4 '0' (natRepr loc) ++
           rjust 4 '0' (natRepr dc) ++ rjust 4 '0' (natRepr dc)) := by
  have hp : (mkPath lin loc dc eg).drop 1 =
      ("ine".toList ++ '_' :: natRepr lin) ++ '/' ::
        (("location".toList ++ '_' :: natRepr loc) ++ '/' ::
          (("datacapture".toList ++ '_' :: natRepr dc) ++ '/' ::
            ("echogram".toList ++ '_' :: natRepr eg))) := rfl
  have hA : ∀ c ∈ ("ine".toList ++ '_' :: natRepr lin), c ≠ '/' :=
    seg_no_slash _ (by decide) lin
  have hB : ∀ c ∈ ("location".toList ++ '_' :: natRepr loc), c ≠ '/' :=
    seg_no_slash _ (by decide) loc
  have hC : ∀ c ∈ ("datacapture".toList ++ '_' :: natRepr dc), c ≠ '/' :=
    seg_no_slash _ (by decide) dc
  have hs1 : pySplitCh '/' 1 ((mkPath lin loc dc eg).drop 1) =
      [("ine".toList ++ '_' :: natRepr lin),
       (("location".toList ++ '_' :: natRepr loc) ++ '/' ::
          (("datacapture".toList ++ '_' :: natRepr dc) ++ '/' ::
            ("echogram".toList ++ '_' :: natRepr eg)))] := by
    rw [hp, pySplitCh_sep '/' 0 1 rfl _ _ hA, pySplitCh_zero]
  have hs2 : pySplitCh '/' 2 ((mkPath lin loc dc eg).drop 1) =
      [("ine".toList ++ '_' :: natRepr lin),
       ("location".toList ++ '_' :: natRepr loc),
       (("datacapture".toList ++ '_' :: natRepr dc) ++ '/' ::
          ("echogram".toList ++ '_' :: natRepr eg))] := by
    rw [hp, pySplitCh_sep '/' 1 2 rfl _ _ hA, pySplitCh_sep '/' 0 1 rfl _ _ hB,
      pySplitCh_zero]
  have hs3 : pySplitCh '/' 3 ((mkPath lin loc dc eg).drop 1) =
      [("ine".toList ++ '_' :: natRepr lin),
       ("location".toList ++ '_' :: natRepr loc),
       ("datacapture".toList ++ '_' :: natRepr dc),
       ("echogram".toList ++ '_' :: natRepr eg)] := by
    rw [hp, pySplitCh_sep '/' 2 3 rfl _ _ hA, pySplitCh_sep '/' 1 2 rfl _ _ hB,
      pySplitCh_sep '/' 0 1 rfl _ _ hC, pySplitCh_zero]
  have hsegA : segNum ("ine".toList ++ '_' :: natRepr lin) = .ok lin :=
    segNum_field _ (by decide) lin
  have hsegB : segNum ("location".toList ++ '_' :: natRepr loc) = .ok loc :=
    segNum_field _ (by decide) loc
  have hsegC : segNum ("datacapture".toList ++ '_' :: natRepr dc) = .ok dc :=
    segNum_field _ (by decide) dc
  simp only [path2fid, hs1, hs2, hs3, pyIdxE_two_zero, pyIdxE_three_one, pyIdxE_four_two,
    exbind_ok, hsegA, hsegB, hsegC, Bool.false_eq_true, if_false]
  rfl

/-! Helper lemmas about `pyMax`, `exceptMapM` and padding. -/

theorem le_foldlMax (xs : List Nat) : ∀ x, x ≤ xs.foldl Nat.max x := by
  induction xs with
  | nil => intro x; simp
  | cons a l ih =>
    intro x
    calc x ≤ Nat.max x a := Nat.le_max_left x a
    _ ≤ l.foldl Nat.max (Nat.max x a) := ih (Nat.max x a)

theorem mem_le_foldlMax (xs : List Nat) : ∀ x y, y ∈ xs → y ≤ xs.foldl Nat.max x := by
  induction xs with
  | nil => intro x y h; simp at h
  | cons a l ih =>
    intro x y h
    rcases List.mem_cons.mp h with he | hm
    · subst he
      show y ≤ l.foldl Nat.max (Nat.max x y)
      calc y ≤ Nat.max x y := Nat.le_max_right x y
      _ ≤ _ := le_foldlMax l (Nat.max x y)
    · exact ih (Nat.max x a) y hm

theorem foldlMax_mem (xs : List Nat) :
    ∀ x, xs.foldl Nat.max x = x ∨ xs.foldl Nat.max x ∈ xs := by
  induction xs with
  | nil => intro x; left; rfl
  | cons a l ih =>
    intro x
    show l.foldl Nat.max (Nat.max x a) = x ∨ l.foldl Nat.max (Nat.max x a) ∈ a :: l
    rcases ih (Nat.max x a) with h | h
    · rcases Nat.le_total x a with hle | hle
      · right
        have hm : Nat.max x a = a := Nat.max_eq_right hle
        rw [h, hm]
        exact List.mem_cons_self a l
      · left
        have hm : Nat.max x a = x := Nat.max_eq_left hle
        rw [h, hm]
    · right; exact List.mem_cons.mpr (Or.inr h)

theorem pyMax_spec (l : List Nat) (h : l ≠ []) :
    ∃ m, pyMax l = some m ∧ m ∈ l ∧ ∀ y ∈ l, y ≤ m := by
  match l, h with
  | x :: xs, _ =>
    refine ⟨xs.foldl Nat.max x, rfl, ?_, ?_⟩
    · rcases foldlMax_mem xs x with h1 | h1
      · rw [h1]; exact List.mem_cons_self x xs
      · exact List.mem_cons.mpr (Or.inr h1)
    · intro y hy
      rcases List.mem_cons.mp hy with he | hm
      · subst he; exact le_foldlMax xs y
      · exact mem_le_foldlMax xs x y hm

theorem exceptMapM_ok {α β : Type} (f : α → Except PyErr β) :
    ∀ l : List α, (∀ x ∈ l, ∃ y, f x = .ok y) → ∃ ys, exceptMapM f l = .ok ys := by
  intro l
  induction l with
  | nil => intro _; exact ⟨[], rfl⟩
  | cons a l ih =>
    intro h
    obtain ⟨y, hy⟩ := h a (by simp)
    obtain ⟨ys, hys⟩ := ih fun x hx => h x (by simp [hx])
    refine ⟨y :: ys, ?_⟩
    simp only [exceptMapM, hy, exbind_ok, hys]
    rfl

theorem padTo_length (m : Nat) (v : List Int) (hle : v.length ≤ m) :
    (padTo m v).length = m := by
  simp [padTo]
  omega

theorem padTo_getD (m : Nat) (v : List Int) (i : Nat) :
    (padTo m v).getD i 0 = if i < v.length then v.getD i 0 else 0 := by
  by_cases hi : i < v.length
  · rw [if_pos hi]
    unfold padTo
    rw [List.getD_eq_getElem?_getD, List.getElem?_append_left hi,
      ← List.getD_eq_getElem?_getD]
  · rw [if_neg hi]
    unfold padTo
    rw [List.getD_eq_getElem?_getD, List.getElem?_append_right (by omega),
      List.getElem?_replicate]
    by_cases hr : i - v.length < m - v.length
    · rw [if_pos hr]; rfl
    · rw [if_neg hr]; rfl

/-! The claims. -/

/-- C1: the claim that `_path2fid` with `linloc_only = false` maps distinct
(line, location, datacapture, echogram) 4-tuples (all fields < 10000) to
distinct 16-digit identifiers fails on the code: the echogram field is
computed from the datacapture path segment, so the two distinct paths
`line_1/location_2/datacapture_3/echogram_4` and
`line_1/location_2/datacapture_3/echogram_9` both map to `0001000200030003`
(which is indeed 16 digit characters, as the rest of the claim states). -/
theorem path2fid_echogram_collision :
    path2fid ("line_1/location_2/datacapture_3/echogram_4".toList) false =
        .ok ("0001000200030003".toList) ∧
      path2fid ("line_1/location_2/datacapture_3/echogram_9".toList) false =
        .ok ("0001000200030003".toList) ∧
      ("line_1/location_2/datacapture_3/echogram_4".toList : Str) ≠
        "line_1/location_2/datacapture_3/echogram_9".toList ∧
      ("0001000200030003".toList : Str).length = 16 ∧
      ∀ c ∈ ("0001000200030003".toList : Str), isDigit c = true :=
  ⟨rfl, rfl, by decide, by decide, by decide⟩

/-- C8 counterexample: on a path whose line field is 12345 (≥ 10000),
`_path2fid` does not raise — it returns a 17-character identifier, refuting
the claim that the codec fails loudly on over-wide fields. -/
theorem path2fid_overflow_counterexample :
    path2fid ("line_12345/location_1/datacapture_2/echogram_3".toList) false =
        .ok ("12345000100020002".toList) ∧
      ("12345000100020002".toList : Str).length = 17 :=
  ⟨rfl, by decide⟩

/-- Upper bound on the digit count: `n < 10^(k+1)` needs at most `k+1`
digits. -/
theorem natReprRev_len_le : ∀ (k n : Nat), n < 10 ^ (k + 1) → (natReprRev n).length ≤ k + 1 := by
  intro k
  induction k with
  | zero =>
    intro n hn
    have h10 : n < 10 := by
      have : (10 : Nat) ^ (0 + 1) = 10 := by norm_num
      omega
    rw [natReprRev_unfold, if_pos h10]
    simp
  | succ k ih =>
    intro n hn
    by_cases h10 : n < 10
    · rw [natReprRev_unfold, if_pos h10]
      simp
    · rw [natReprRev_unfold, if_neg h10]
      have hd : n / 10 < 10 ^ (k + 1) := by
        rw [Nat.div_lt_iff_lt_mul (by norm_num)]
        calc n < 10 ^ (k + 1 + 1) := hn
        _ = 10 ^ (k + 1) * 10 := by rw [pow_succ]
      have := ih (n / 10) hd
      simp
      omega

theorem natRepr_len_le_four {n : Nat} (h : n < 10000) : (natRepr n).length ≤ 4 := by
  have h4 : n < 10 ^ (3 + 1) := by
    calc n < 10000 := h
    _ = 10 ^ (3 + 1) := by norm_num
  have := natReprRev_len_le 3 n h4
  simpa [natRepr] using this

theorem five_le_natRepr_len {n : Nat} (h : 10000 ≤ n) : 5 ≤ (natRepr n).length := by
  have h4 : (10 : Nat) ^ 4 ≤ n := by
    calc (10 : Nat) ^ 4 = 10000 := by norm_num
    _ ≤ n := h
  have := natRepr_len_ge 4 n h4
  omega

/-- C8 amended: on a well-formed path `_path2fid` never raises, whatever the
field widths: `rjust` only pads and never truncates, so the call silently
returns the concatenation of the untruncated zero-padded fields.  When the
line, location or datacapture number needs more than 4 characters the
identifier is strictly longer than 16 characters; an over-wide echogram
number alone leaves it at exactly 16 characters, because the defect recorded
under C1 puts the datacapture number in the echogram slot and drops the
echogram field entirely. -/
theorem path2fid_overflow_amended (lin loc dc eg : Nat) :
    path2fid (mkPath lin loc dc eg) false =
        .ok (rjust 4 '0' (natRepr lin) ++ rjust 4 '0' (natRepr loc) ++
             rjust 4 '0' (natRepr dc) ++ rjust 4 '0' (natRepr dc)) ∧
      (10000 ≤ lin ∨ 10000 ≤ loc ∨ 10000 ≤ dc →
        ∀ fid, path2fid (mkPath lin loc dc eg) false = .ok fid → 16 < fid.length) ∧
      (lin < 10000 → loc < 10000 → dc < 10000 →
        ∀ fid, path2fid (mkPath lin loc dc eg) false = .ok fid → fid.length = 16) := by
  have hpf := path2fid_mkPath lin loc dc eg
  have e1 := rjust_length 4 '0' (natRepr lin)
  have e2 := rjust_length 4 '0' (natRepr loc)
  have e3 := rjust_length 4 '0' (natRepr dc)
  refine ⟨hpf, ?_, ?_⟩
  · intro hbig fid hf
    rw [hpf] at hf
    injection hf with hf
    subst hf
    have b1 : 4 ≤ max 4 (natRepr lin).length := le_max_left 4 _
    have b2 : 4 ≤ max 4 (natRepr loc).length := le_max_left 4 _
    have b3 : 4 ≤ max 4 (natRepr dc).length := le_max_left 4 _
    simp only [List.length_append, e1, e2, e3]
    rcases hbig with h | h | h
    · have c1 : 5 ≤ max 4 (natRepr lin).length :=
        le_trans (five_le_natRepr_len h) (le_max_right 4 _)
      omega
    · have c2 : 5 ≤ max 4 (natRepr loc).length :=
        le_trans (five_le_natRepr_len h) (le_max_right 4 _)
      omega
    · have c3 : 5 ≤ max 4 (natRepr dc).length :=
        le_trans (five_le_natRepr_len h) (le_max_right 4 _)
      omega
  · intro h1 h2 h3 fid hf
    rw [hpf] at hf
    injection hf with hf
    subst hf
    have m1 : max 4 (natRepr lin).length = 4 := max_eq_left (natRepr_len_le_four h1)
    have m2 : max 4 (natRepr loc).length = 4 := max_eq_left (natRepr_len_le_four h2)
    have m3 : max 4 (natRepr dc).length = 4 := max_eq_left (natRepr_len_le_four h3)
    simp only [List.length_append, e1, e2, e3, m1, m2, m3]

/-- C2: constructing a Survey over a store with lines {1, 2} and locations
{A, B} under each does yield a retention map with all four pairs true, and
the filtering logic of `WriteHDF5`, *given an open handle*, writes exactly
the subtrees for line 1/location B, line 2/location A and line 2/location B
and not line 1/location A.  But in the claimed scenario the handle is closed
(every code path of the class leaves it closed), and `WriteHDF5` never calls
`_openh5`, so the call raises `ValueError` on its first read of `self.f` and
produces no output store at all — the same slip recorded under C3. -/
theorem survey_retention_roundtrip :
    buildRetain storeR =
        [("line_1".toList, [("location_A".toList, true), ("location_B".toList, true)]),
         ("line_2".toList, [("location_A".toList, true), ("location_B".toList, true)])] ∧
      writeHDF5 storeR
          (setRetain (buildRetain storeR) ("line_1".toList) ("location_A".toList) false)
          false false ⟨.closed, false⟩ =
        (.error .valueError, ⟨.closed, true⟩) ∧
      (writeHDF5 storeR
          (setRetain (buildRetain storeR) ("line_1".toList) ("location_A".toList) false)
          false false ⟨.opened, false⟩).1 =
        .ok (some
          [("line_1".toList, HNode.group [("location_B".toList, locN [3])]),
           ("line_2".toList, HNode.group
              [("location_A".toList, locN [4]), ("location_B".toList, locN [5, 6])])]) :=
  ⟨rfl, rfl, rfl⟩

/-- C3: the claim that every store-touching operation opens the store before
reading and closes it on exit is violated by `WriteHDF5`: starting from the
closed handle left by `__init__`, the method reads `self.f` without ever
calling `_openh5`, so its first read happens on a closed handle (for any
source store, retention map and `overwrite` flag, with the destination not
yet existing) — in h5py that read raises. -/
theorem writehdf5_reads_closed_handle (store : Store) (retain : RetainMap)
    (overwrite : Bool) :
    (writeHDF5 store retain false overwrite ⟨.closed, false⟩).2.badRead = true := by
  simp [writeHDF5, readCheck, readF]

/-- C8 witness: the amended statement at a 5-digit line field (identifier
grows to 17 characters) and at a 5-digit echogram field (identifier stays at
exactly 16 characters). -/
theorem path2fid_overflow_amended_witness :
    path2fid (mkPath 12345 1 2 3) false = .ok ("12345000100020002".toList) ∧
      (16 : Nat) < ("12345000100020002".toList : Str).length ∧
      path2fid (mkPath 1 1 1 99999) false = .ok ("0001000100010001".toList) ∧
      ("0001000100010001".toList : Str).length = 16 := by
  have h1 := path2fid_overflow_amended 12345 1 2 3
  have h2 := path2fid_overflow_amended 1 1 1 99999
  have q1 : path2fid (mkPath 12345 1 2 3) false = .ok ("12345000100020002".toList) :=
    h1.1.trans (by decide)
  have q2 : path2fid (mkPath 1 1 1 99999) false = .ok ("0001000100010001".toList) :=
    h2.1.trans (by decide)
  refine ⟨q1, ?_, q2, ?_⟩
  · exact h1.2.1 (Or.inl (by norm_num)) _ q1
  · exact h2.2.2 (by norm_num) (by norm_num) (by norm_num) _ q2

theorem map_getD_of_lt {α β : Type} (f : α → β) (l : List α) (j : Nat)
    (hj : j < l.length) (da : α) (db : β) :
    (l.map f).getD j db = f (l.getD j da) := by
  rw [List.getD_eq_getElem?_getD, List.getElem?_map, List.getD_eq_getElem?_getD,
    List.getElem?_eq_getElem hj]
  simp

theorem getD_mem_of_lt {α : Type} (l : List α) (j : Nat) (hj : j < l.length) (d : α) :
    l.getD j d ∈ l := by
  rw [List.getD_eq_getElem?_getD, List.getElem?_eq_getElem hj]
  simp

/-- C4: for any non-empty selection of traces, the assembled array has
max-sample-count rows; column `j` has exactly that many entries, carries
trace `j`'s values in rows `[0, len(trace_j))` and zeros in every later row. -/
theorem extractline_padding (vecs : List (List Int)) (h : vecs ≠ []) :
    assemble vecs = some (maxSamples vecs, vecs.map (padTo (maxSamples vecs))) ∧
      (∀ v ∈ vecs, v.length ≤ maxSamples vecs) ∧
      (∃ v ∈ vecs, v.length = maxSamples vecs) ∧
      ∀ j, j < vecs.length →
        ((vecs.map (padTo (maxSamples vecs))).getD j []).length = maxSamples vecs ∧
        ∀ i, i < maxSamples vecs →
          ((vecs.map (padTo (maxSamples vecs))).getD j []).getD i 0 =
            if i < (vecs.getD j []).length then (vecs.getD j []).getD i 0 else 0 := by
  have hne : vecs.map List.length ≠ [] := by
    intro hx
    exact h (List.map_eq_nil_iff.mp hx)
  obtain ⟨m, hm, hmem, hub⟩ := pyMax_spec _ hne
  have hms : maxSamples vecs = m := by simp [maxSamples, hm]
  have hbound : ∀ v ∈ vecs, v.length ≤ maxSamples vecs := by
    intro v hv
    rw [hms]
    exact hub _ (List.mem_map.mpr ⟨v, hv, rfl⟩)
  refine ⟨by simp [assemble, hm, hms], hbound, ?_, ?_⟩
  · rw [hms]
    obtain ⟨v, hv, he⟩ := List.mem_map.mp hmem
    exact ⟨v, hv, he⟩
  · intro j hj
    rw [map_getD_of_lt (padTo (maxSamples vecs)) vecs j hj [] []]
    have hjmem : vecs.getD j [] ∈ vecs := getD_mem_of_lt vecs j hj []
    constructor
    · exact padTo_length _ _ (hbound _ hjmem)
    · intro i _
      exact padTo_getD _ _ i

/-- C4 witness: traces of lengths {5, 3, 7} assemble into a 7-row, 3-column
array with the 3-sample trace padded by zeros in rows 3–6. -/
theorem extractline_padding_witness :
    vecs537 ≠ [] ∧
      assemble vecs537 =
        some (7, [[1, 2, 3, 4, 5, 0, 0], [6, 7, 8, 0, 0, 0, 0],
                  [9, 10, 11, 12, 13, 14, 15]]) :=
  ⟨by decide, ((extractline_padding vecs537 (by decide)).1).trans (by decide)⟩

/-- C6 counterexample: with the malformed bounds argument `(2,)` (a
subscriptable sequence that is not a 2-element pair), `ExtractLine` does not
report the bounds diagnostic and skip bounding — `bounds[1]` raises
`IndexError`, which is not caught, and the whole extraction aborts. -/
theorem extractline_bounds_counterexample :
    (extractLine sv1 store1 0 (.tup [.intV 2]) (.one 0) false ("cache".toList) none).1 =
        .error .indexError ∧
      boundsWarnMsg ∉
        (extractLine sv1 store1 0 (.tup [.intV 2]) (.one 0) false
          ("cache".toList) none).2.2 :=
  ⟨rfl, by decide⟩

/-- C6 amended: for an integer pair `(a, b)` the bounds block keeps exactly
the slice `datasets[a:b]` of the sorted sequence (so 10 leaves with bounds
(2, 8) keep exactly the 6 leaves at indices 2..7), and a bounds argument
whose subscripting raises `TypeError` (e.g. a non-subscriptable scalar) is
reported and skipped; but a subscriptable bounds with fewer than two elements
raises an uncaught `IndexError` and aborts the extraction (see the
counterexample). -/
theorem applybounds_amended (ds : List Str) (a b : Nat) :
    applyBounds (.tup [.intV (a : Int), .intV (b : Int)]) ds =
        .ok ((ds.take b).drop a, false) ∧
      applyBounds BoundsArg.scalarB ds = .ok (ds, true) ∧
      applyBounds (.tup [.intV 2, .intV 8]) ds10 =
        .ok (["c".toList, "d".toList, "e".toList, "f".toList, "g".toList, "h".toList],
             false) := by
  have ha0 : ¬ ((a : Int) < 0) := by omega
  have hb0 : ¬ ((b : Int) < 0) := by omega
  refine ⟨?_, rfl, by decide⟩
  simp only [applyBounds, getitemB, pyIdxE_two_one, pyIdxE_two_zero, pySliceTo,
    pySliceFrom, ha0, hb0, if_false, ite_false, Int.toNat_natCast]

/-- C7: a cache-backed request against a missing cache file falls through to
store-backed assembly and yields exactly the result (gather, arrays and all)
and the same final survey state as the plain request. -/
theorem extractline_cachemiss_equiv (sv : Survey) (store : Store) (line : Nat)
    (bounds : BoundsArg) (dc : DcArg) (cacheDir : Str) :
    (extractLine sv store line bounds dc true cacheDir none).1 =
        (extractLine sv store line bounds dc false cacheDir none).1 ∧
      (extractLine sv store line bounds dc true cacheDir none).2.1 =
        (extractLine sv store line bounds dc false cacheDir none).2.1 :=
  ⟨rfl, rfl⟩

/-- C5: when the dataset selection for a line is empty (and the line group
itself resolves, and the bounds argument does not itself raise on the empty
sequence), `ExtractLine` aborts assembly: it returns no gather at all
(`.ok none`, the Python `return` with no value) and reports the diagnostic
naming the implicated line. -/
theorem extractline_empty_abort (sv : Survey) (store : Store) (line : Nat)
    (bounds : BoundsArg) (dc : DcArg) (cacheDir : Str) (cs : List (Str × HNode)) (w : Bool)
    (hline : childNamed store (linePath line) = some (.group cs))
    (hsel : selectDatasets (.group cs) (linePath line) (allowedDcs dc) = .ok [])
    (hbounds : applyBounds bounds ([] : List Str) = .ok ([], w)) :
    (extractLine sv store line bounds dc false cacheDir none).1 = .ok none ∧
      failedIndexMsg (linePath line) ∈
        (extractLine sv store line bounds dc false cacheDir none).2.2 := by
  have hsort : sortDatasets [] = .ok ([] : List Str) := rfl
  have hfids : exceptMapM (fun t => path2fid (linePath line ++ ('/' :: t)) false)
      ([] : List Str) = .ok [] := rfl
  have hasm : assemble (([] : List Str).map (leafVals (.group cs))) = none := rfl
  simp only [extractLine, Bool.false_eq_true, if_false, ite_false, extractCore,
    extractBody, hline, hsel, hsort, hbounds, hfids, hasm]
  constructor
  · trivial
  · simp [List.mem_append]

/-- C5 witness: requesting channel 5 on a store that only has channel 0. -/
theorem extractline_empty_abort_witness :
    (extractLine sv1 store1 0 (.tup [.noneV, .noneV]) (.one 5) false
        ("cache".toList) none).1 = .ok none ∧
      failedIndexMsg (linePath 0) ∈
        (extractLine sv1 store1 0 (.tup [.noneV, .noneV]) (.one 5) false
          ("cache".toList) none).2.2 :=
  extractline_empty_abort sv1 store1 0 (.tup [.noneV, .noneV]) (.one 5) ("cache".toList)
    [("location_0".toList, locN [1, 2, 3, 4, 5]), ("location_1".toList, locN [6, 7, 8]),
     ("location_2".toList, locN [9, 10, 11, 12, 13, 14, 15])] false rfl rfl rfl

/-- C9: `GetLines` returns exactly the top-level names whose first four
characters are `line`, in ascending order of the number after the underscore,
and the handle is closed (with no read while closed) in the state it leaves
behind — provided each kept name actually carries a parseable number (else
the sort key raises). -/
theorem getlines_spec (store : Store) (st : H5S)
    (hkeys : ∀ n ∈ lineNames store, ∃ k, lineKey n = .ok k) :
    getLines store st =
        (.ok (List.insertionSort (keyLe keyD) (lineNames store)),
         { status := .closed, badRead := st.badRead }) ∧
      (List.insertionSort (keyLe keyD) (lineNames store)).Perm (lineNames store) ∧
      (List.insertionSort (keyLe keyD) (lineNames store)).Pairwise (keyLe keyD) ∧
      ∀ n : Str,
        n ∈ List.insertionSort (keyLe keyD) (lineNames store) ↔ n ∈ lineNames store := by
  obtain ⟨ys, hys⟩ := exceptMapM_ok lineKey (lineNames store) hkeys
  refine ⟨?_, List.perm_insertionSort _ _, List.sorted_insertionSort _ _,
    fun n => (List.perm_insertionSort _ _).mem_iff⟩
  simp only [getLines, hys, openF, readF, closeF]
  simp

/-- C9 witness: a store whose lines are 9 and 10 (plus a non-line entry):
the result keeps exactly the two line names and puts `line_9` before
`line_10`, numerically rather than lexicographically. -/
theorem getlines_spec_witness :
    getLines store9 { status := .closed, badRead := false } =
      (.ok ["line_9".toList, "line_10".toList],
       { status := Status.closed, badRead := false }) := by
  refine ((getlines_spec store9 { status := .closed, badRead := false } ?_).1).trans
    (by decide)
  intro n hn
  have hval : lineNames store9 = ["line_10".toList, "line_9".toList] := rfl
  rw [hval] at hn
  simp only [List.mem_cons, List.not_mem_nil, or_false] at hn
  rcases hn with h | h
  · subst h; exact ⟨10, rfl⟩
  · subst h; exact ⟨9, rfl⟩

/-- C10: `ExtractLine` never changes the survey's `datafile` or any entry of
its retention map (for any arguments, cached or not), and when a store-backed
call returns a gather, that gather's retain view is exactly the line's
sub-map of the unchanged retention map. -/
theorem extractline_frame (sv : Survey) (store : Store) (line : Nat)
    (bounds : BoundsArg) (dc : DcArg) (fromcache : Bool) (cacheDir : Str)
    (cacheFile : Option Gather) :
    ((extractLine sv store line bounds dc fromcache cacheDir cacheFile).2.1.datafile =
        sv.datafile ∧
      (extractLine sv store line bounds dc fromcache cacheDir cacheFile).2.1.retain =
        sv.retain) ∧
      ∀ g : Gather,
        (extractLine sv store line bounds dc false cacheDir cacheFile).1 =
            .ok (some g) →
          g.retain = (sv.retain.lookup (linePath line)).getD [] := by
  refine ⟨⟨?_, ?_⟩, ?_⟩
  · cases fromcache <;> cases cacheFile <;> simp [extractLine, extractCore]
  · cases fromcache <;> cases cacheFile <;> simp [extractLine, extractCore]
  · intro g hg
    simp only [extractLine, Bool.false_eq_true, if_false, ite_false, extractCore,
      extractBody] at hg
    rcases hc : childNamed store (linePath line) with _ | node
    · rw [hc] at hg; simp at hg
    · cases node with
      | dataset vals =>
        rw [hc] at hg
        simp at hg
      | group cs =>
        rw [hc] at hg
        dsimp only at hg
        rcases hs : selectDatasets (HNode.group cs) (linePath line) (allowedDcs dc)
            with e | ds0
        · rw [hs] at hg; simp at hg
        · rw [hs] at hg
          dsimp only at hg
          rcases ht : sortDatasets ds0 with e | ds1
          · rw [ht] at hg; simp at hg
          · rw [ht] at hg
            dsimp only at hg
            rcases hb : applyBounds bounds ds1 with e | p
            · rw [hb] at hg; simp at hg
            · rcases p with ⟨ds2, warned⟩
              rw [hb] at hg
              dsimp only at hg
              rcases hf : exceptMapM
                  (fun t => path2fid (linePath line ++ ('/' :: t)) false) ds2
                  with e | fids
              · rw [hf] at hg; simp at hg
              · rw [hf] at hg
                dsimp only at hg
                rcases ha : assemble (List.map (leafVals (HNode.group cs)) ds2)
                    with _ | q
                · rw [ha] at hg; simp at hg
                · rcases q with ⟨m, cols⟩
                  rw [ha] at hg
                  simp only [Except.ok.injEq, Option.some.injEq] at hg
                  subst hg
                  rfl

/-- C10 witness: extracting line 0 of `store1` leaves `sv1` intact and hands
the gather the retain view of `line_0`. -/
theorem extractline_frame_witness :
    (extractLine sv1 store1 0 (.tup [.noneV, .noneV]) (.one 0) false
        ("cache".toList) none).1 = .ok (some gather1) ∧
      gather1.retain = (sv1.retain.lookup (linePath 0)).getD [] :=
  ⟨rfl,
   (extractline_frame sv1 store1 0 (.tup [.noneV, .noneV]) (.one 0) false
      ("cache".toList) none).2 gather1 rfl⟩
